import Mathlib

/-!
# Verification of the DTAIOC AI-model question pipeline

A shallow embedding, in Lean 4, of the question-generation-and-validation
pipeline of the repository (files `ai/question_generator.py` and
`ai/answer_validator.py`), together with theorems settling the specification
claims about it.

The embedding models:
* SHA-256 over byte lists (Python's `hashlib.sha256` on UTF-8 encoded strings),
  used for the `"0x" + hexdigest` question fingerprints;
* `clean_json_response`, including the exact scan semantics of
  `re.sub(r'^```json\s*|\s*```$', '', content, flags=re.MULTILINE)`
  restricted to ASCII whitespace;
* `QuestionGenerator.generate_questions`, with external model calls supplied
  by an oracle `Nat → CallOut` giving the (already JSON-parsed) outcome of the
  n-th API call, Python exceptions threaded explicitly, and every issued model
  call recorded in a trace;
* `validate_answers`, with the database lookup supplied as a value.
-/

namespace DTAI

/-! ## SHA-256 over byte lists

Machine words are `Nat` reduced modulo `2 ^ 32` (written `4294967296`) exactly
where Python/`hashlib` arithmetic wraps. -/

/-- 32-bit truncation. -/
def m32 (x : Nat) : Nat := x % 4294967296

/-- 32-bit right rotation. -/
def rotr (n x : Nat) : Nat := m32 ((x >>> n) ||| (x <<< (32 - n)))

/-- Bitwise complement on 32 bits. -/
def not32 (x : Nat) : Nat := Nat.xor x 4294967295

/-- SHA-256 `Ch(x, y, z)`. -/
def ch32 (x y z : Nat) : Nat := Nat.xor (Nat.land x y) (Nat.land (not32 x) z)

/-- SHA-256 `Maj(x, y, z)`. -/
def maj32 (x y z : Nat) : Nat :=
  Nat.xor (Nat.xor (Nat.land x y) (Nat.land x z)) (Nat.land y z)

/-- SHA-256 `Σ0`. -/
def bsig0 (x : Nat) : Nat := Nat.xor (Nat.xor (rotr 2 x) (rotr 13 x)) (rotr 22 x)

/-- SHA-256 `Σ1`. -/
def bsig1 (x : Nat) : Nat := Nat.xor (Nat.xor (rotr 6 x) (rotr 11 x)) (rotr 25 x)

/-- SHA-256 `σ0`. -/
def ssig0 (x : Nat) : Nat := Nat.xor (Nat.xor (rotr 7 x) (rotr 18 x)) (x >>> 3)

/-- SHA-256 `σ1`. -/
def ssig1 (x : Nat) : Nat := Nat.xor (Nat.xor (rotr 17 x) (rotr 19 x)) (x >>> 10)

/-- The 64 SHA-256 round constants (FIPS 180-4), in decimal. -/
def K256 : List Nat :=
  [1116352408, 1899447441, 3049323471, 3921009573,
   961987163, 1508970993, 2453635748, 2870763221,
   3624381080, 310598401, 607225278, 1426881987,
   1925078388, 2162078206, 2614888103, 3248222580,
   3835390401, 4022224774, 264347078, 604807628,
   770255983, 1249150122, 1555081692, 1996064986,
   2554220882, 2821834349, 2952996808, 3210313671,
   3336571891, 3584528711, 113926993, 338241895,
   666307205, 773529912, 1294757372, 1396182291,
   1695183700, 1986661051, 2177026350, 2456956037,
   2730485921, 2820302411, 3259730800, 3345764771,
   3516065817, 3600352804, 4094571909, 275423344,
   430227734, 506948616, 659060556, 883997877,
   958139571, 1322822218, 1537002063, 1747873779,
   1955562222, 2024104815, 2227730452, 2361852424,
   2428436474, 2756734187, 3204031479, 3329325298]

/-- The eight working variables of the SHA-256 state. -/
structure H8 where
  a : Nat
  b : Nat
  c : Nat
  d : Nat
  e : Nat
  f : Nat
  g : Nat
  h : Nat
deriving Repr, DecidableEq

/-- The SHA-256 initial hash value (FIPS 180-4), in decimal. -/
def initH : H8 :=
  ⟨1779033703, 3144134277, 1013904242, 2773480762,
   1359893119, 2600822924, 528734635, 1541459225⟩

/-- Extend a 16-word block to the 64-word message schedule. -/
def extendSched (block : List Nat) : List Nat :=
  (List.range 48).foldl
    (fun acc i =>
      let t := i + 16
      acc ++ [m32 (ssig1 (acc.getD (t - 2) 0) + acc.getD (t - 7) 0 +
                   ssig0 (acc.getD (t - 15) 0) + acc.getD (t - 16) 0)])
    block

/-- One SHA-256 compression round, consuming one `(Kt, Wt)` pair. -/
def round256 (st : H8) (kw : Nat × Nat) : H8 :=
  let t1 := m32 (st.h + bsig1 st.e + ch32 st.e st.f st.g + kw.1 + kw.2)
  let t2 := m32 (bsig0 st.a + maj32 st.a st.b st.c)
  ⟨m32 (t1 + t2), st.a, st.b, st.c, m32 (st.d + t1), st.e, st.f, st.g⟩

/-- Compress one 16-word block into the state. -/
def compressBlock (st : H8) (block : List Nat) : H8 :=
  let r := ((K256.zip (extendSched block)).foldl round256 st)
  ⟨m32 (st.a + r.a), m32 (st.b + r.b), m32 (st.c + r.c), m32 (st.d + r.d),
   m32 (st.e + r.e), m32 (st.f + r.f), m32 (st.g + r.g), m32 (st.h + r.h)⟩

/-- A `Nat` as 8 big-endian bytes (the SHA-256 length field). -/
def be8 (n : Nat) : List Nat :=
  [(n >>> 56) % 256, (n >>> 48) % 256, (n >>> 40) % 256, (n >>> 32) % 256,
   (n >>> 24) % 256, (n >>> 16) % 256, (n >>> 8) % 256, n % 256]

/-- SHA-256 padding: `0x80`, zeros to 56 mod 64, then the bit length. -/
def padMsg (msg : List Nat) : List Nat :=
  let zeros := (64 - (msg.length + 9) % 64) % 64
  msg ++ [0x80] ++ List.replicate zeros 0 ++ be8 (8 * msg.length)

/-- Big-endian 32-bit words from a byte list (length assumed divisible by 4). -/
def toWords : List Nat → List Nat
  | b0 :: b1 :: b2 :: b3 :: rest => (((b0 * 256 + b1) * 256 + b2) * 256 + b3) :: toWords rest
  | _ => []

/-- Split a word list into 16-word blocks.  The fuel only bounds the
recursion (each step consumes 16 words), so any `fuel ≥ ws.length` is exact;
structural recursion on it keeps the definition kernel-reducible. -/
def chunk16 : Nat → List Nat → List (List Nat)
  | _, [] => []
  | 0, _ => []
  | fuel + 1, ws => ws.take 16 :: chunk16 fuel (ws.drop 16)

/-- The SHA-256 state after absorbing a whole (unpadded) byte message. -/
def sha256State (msg : List Nat) : H8 :=
  let ws := toWords (padMsg msg)
  (chunk16 ws.length ws).foldl compressBlock initH

/-- A 32-bit word as 4 big-endian bytes. -/
def wordBE4 (w : Nat) : List Nat :=
  [(w >>> 24) % 256, (w >>> 16) % 256, (w >>> 8) % 256, w % 256]

/-- SHA-256 digest of a byte message, as its 32 digest bytes. -/
def sha256 (msg : List Nat) : List Nat :=
  let st := sha256State msg
  wordBE4 st.a ++ wordBE4 st.b ++ wordBE4 st.c ++ wordBE4 st.d ++
  wordBE4 st.e ++ wordBE4 st.f ++ wordBE4 st.g ++ wordBE4 st.h

/-! ## Hex digests and UTF-8 -/

/-- A nibble as the lowercase hex character Python's `hexdigest` emits. -/
def hexDigitChar (n : Nat) : Char :=
  if n < 10 then Char.ofNat (48 + n) else Char.ofNat (87 + n)

/-- A byte as two lowercase hex characters. -/
def hexByte (b : Nat) : List Char := [hexDigitChar (b / 16), hexDigitChar (b % 16)]

/-- Lowercase hex encoding of a byte list (Python `hexdigest()`). -/
def hexOfBytes (bs : List Nat) : String := String.mk (bs.flatMap hexByte)

/-- UTF-8 encoding of one character (Python `str.encode()`), as byte values. -/
def utf8Char (c : Char) : List Nat :=
  let n := c.toNat
  if n < 128 then [n]
  else if n < 2048 then [192 + n / 64, 128 + n % 64]
  else if n < 65536 then [224 + n / 4096, 128 + (n / 64) % 64, 128 + n % 64]
  else [240 + n / 262144, 128 + (n / 4096) % 64, 128 + (n / 64) % 64, 128 + n % 64]

/-- UTF-8 encoding of a string, as byte values. -/
def utf8Bytes (s : String) : List Nat := s.data.flatMap utf8Char

/-- Line 213 of `ai/question_generator.py`:
`"0x" + sha256((question + correct_answer).encode()).hexdigest()`. -/
def fingerprint (q a : String) : String :=
  "0x" ++ hexOfBytes (sha256 (utf8Bytes (q ++ a)))

/-! ## `clean_json_response` (lines 37-43 of `ai/question_generator.py`)

The function applies
`re.sub(r'^```json\s*|\s*```$', '', content, flags=re.MULTILINE)`, strips the
result, and raises `ValueError` unless it both starts with `[` and ends with
`]`.  The scan below reproduces Python's leftmost, non-overlapping `re.sub`
semantics for this particular pattern: branch A (`^```json\s*`) is tried at
every line start, branch B (`\s*```$`) at every position, and on no match one
character is emitted.  `\s` is modelled as ASCII whitespace. -/

/-- ASCII whitespace, the fragment of Python's `\s` (and `str.strip`) the
model inputs use. -/
def pySpace (c : Char) : Bool :=
  c == ' ' || c == '\t' || c == '\n' || c == '\r' ||
  c == Char.ofNat 11 || c == Char.ofNat 12

/-- The characters of the opening fence token of the regex. -/
def fenceOpenTok : List Char := "```json".toList

/-- The characters of the closing fence token of the regex. -/
def fenceCloseTok : List Char := "```".toList

/-- Drop leading ASCII whitespace, tracking whether the last dropped character
was a newline (this decides whether `re` is at a line start afterwards). -/
def dropSpacesNL : List Char → Bool → List Char × Bool
  | [], nl => ([], nl)
  | c :: cs, nl =>
    if pySpace c then dropSpacesNL cs (c == '\n') else (c :: cs, nl)

/-- Try branch A, `^```json\s*`, at the current position (caller guarantees a
line start): on a match, return the remaining input and whether the position
after the match is again a line start. -/
def tryFenceOpen (cs : List Char) : Option (List Char × Bool) :=
  if fenceOpenTok.isPrefixOf cs then some (dropSpacesNL (cs.drop 7) false)
  else none

/-- Length of the maximal ASCII-whitespace run at the head. -/
def spaceRun : List Char → Nat
  | [] => 0
  | c :: cs => if pySpace c then spaceRun cs + 1 else 0

/-- Try branch B, `\s*```$`, at the current position: the backreference-free
pattern matches exactly when the maximal whitespace run is followed by
three backticks sitting at a line end (`$` in MULTILINE mode: end of input or
just before a newline).  On a match, return the remaining input. -/
def tryFenceClose (cs : List Char) : Option (List Char) :=
  let rest := cs.drop (spaceRun cs)
  if fenceCloseTok.isPrefixOf rest then
    let rest2 := rest.drop 3
    match rest2 with
    | [] => some []
    | c :: _ => if c == '\n' then some rest2 else none
  else none

/-- The `re.sub` scan: at each position try branch A (only at a line start),
then branch B, else emit the character.  `fuel` bounds the recursion; every
step consumes at least one character, so `fuel = cs.length` is exact. -/
def pySubFence : Nat → Bool → List Char → List Char
  | 0, _, cs => cs
  | fuel + 1, atLS, cs =>
    match cs with
    | [] => []
    | c :: rest =>
      match (if atLS then tryFenceOpen cs else none) with
      | some (cs2, ls2) => pySubFence fuel ls2 cs2
      | none =>
        match tryFenceClose cs with
        | some cs2 => pySubFence fuel false cs2
        | none => c :: pySubFence fuel (c == '\n') rest

/-- Python `str.strip()` on ASCII whitespace, over characters. -/
def pyStrip (cs : List Char) : List Char :=
  ((cs.dropWhile pySpace).reverse.dropWhile pySpace).reverse

/-- The text `clean_json_response` works with after the `re.sub` and
`str.strip` steps. -/
def cleanedText (content : String) : String :=
  String.mk (pyStrip (pySubFence content.data.length true content.data))

/-- `clean_json_response` (lines 37-43): `Except.error ()` models the raised
`ValueError("Response does not contain valid JSON array")`.  Python's
`startswith('[')` and `endswith(']')` are the first- and last-character
checks. -/
def clean_json_response (content : String) : Except Unit String :=
  let t := cleanedText content
  if t.data.head? = some '[' ∧ t.data.getLast? = some ']' then .ok t
  else .error ()

/-- Python string split on newline, over characters. -/
def splitLines : List Char → List (List Char)
  | [] => [[]]
  | c :: cs =>
    let r := splitLines cs
    if c == '\n' then [] :: r
    else (c :: r.headD []) :: r.tail

/-- Rejoin lines with newlines (`"\n".join`). -/
def joinLines : List (List Char) → List Char
  | [] => []
  | [l] => l
  | l :: ls => l ++ '\n' :: joinLines ls

/-- Modelled from the claim's words, for comparison with the code: a line is a
code-fence marker when, after trimming, it is the fenced-block opening token
`"```json"` or the closing token `"```"`. -/
def isFenceLine (l : List Char) : Bool :=
  pyStrip l == "```json".toList || pyStrip l == "```".toList

/-- Modelled from the claim's words, for comparison with the code: strip a
leading and a trailing code-fence marker line, then trim whitespace. -/
def specClean (content : String) : List Char :=
  let ls := splitLines content.data
  let ls1 :=
    match ls with
    | [] => []
    | l :: rest => if isFenceLine l then rest else ls
  let ls2 :=
    match ls1.getLast? with
    | some l => if isFenceLine l then ls1.dropLast else ls1
    | none => ls1
  pyStrip (joinLines ls2)

/-- The failure condition as the claim states it: after the claim's stripping,
the text does not both start with `[` and end with `]`. -/
def specCleanFails (content : String) : Bool :=
  !((specClean content).head? == some '[' &&
    (specClean content).getLast? == some ']')

/-! ## `validate_answers` (`ai/answer_validator.py`)

The database lookup (`SELECT hash FROM questions WHERE ...`) is supplied as a
value: `DbLookup.ok` carries the stored hashes in result order and
`DbLookup.failure` models any exception while connecting or querying. -/

/-- Outcome of the database part of `validate_answers`. -/
inductive DbLookup where
  | ok (hashes : List String)
  | failure
deriving Repr, DecidableEq

/-- Line 25, `sum(1 for i, hash in enumerate(answer_hashes) if hash == correct_hashes[i])`:
`Except.error ()` models the `IndexError` raised by `correct_hashes[i]` once
`i` runs past the stored list. -/
def scoreSum (correct : List String) : List String → Nat → Except Unit Nat
  | [], _ => .ok 0
  | h :: rest, i =>
    match correct[i]? with
    | none => .error ()
    | some c =>
      match scoreSum correct rest (i + 1) with
      | .error e => .error e
      | .ok s => .ok ((if h = c then 1 else 0) + s)

/-- `validate_answers` (lines 8-32): every exception inside the `try` -
including a failed lookup and the `IndexError` from scoring - is caught and
turned into a score of `0`. -/
def validate_answers (db : DbLookup) (answer_hashes : List String) : Nat :=
  match db with
  | .failure => 0
  | .ok correct =>
    match scoreSum correct answer_hashes 0 with
    | .error _ => 0
    | .ok s => s

/-- The score the claim describes: the number of indices present in both lists
at which the two fingerprints are string-equal. -/
def matchCount (correct submitted : List String) : Nat :=
  (submitted.zip correct).countP fun p => p.1 == p.2

/-! ## `QuestionGenerator.generate_questions` (lines 77-246)

External model calls are supplied by an oracle `Nat → CallOut` giving the
outcome of the n-th API call of the run, already taken through
`clean_json_response` / `json.loads`:
* `raise`: the API call itself raised;
* `badText`: content on which `clean_json_response` or `json.loads` raises;
* `numberLit`: content parsing to a JSON number - a non-list, non-iterable
  value (`isinstance(questions, list)` is false; `questions.extend(...)` on it
  raises `TypeError`);
* `parsed qs`: content parsing to a JSON array of question objects.

A parsed question object is a `RawQ`; an `Option` field is `none` when the
key is missing from the object (for `correct_answer`, also when its value is
not an `int`).  Python exceptions are threaded explicitly and every issued
model call is recorded. -/

/-- A parsed question object. -/
structure RawQ where
  question : Option String
  options : Option (List String)
  correct_answer : Option Int
  hash : String
deriving Repr, DecidableEq

/-- The exceptions the translated code can raise internally. -/
inductive PyExc where
  | apiError
  | valueError
  | keyError
  | indexError
deriving Repr, DecidableEq

/-- Outcome of one external model call. -/
inductive CallOut where
  | raise
  | badText
  | numberLit
  | parsed (qs : List RawQ)
deriving Repr, DecidableEq

/-- One issued model call: the initial request for `num_questions` questions,
or a follow-up request for the `missing` count with the already-accepted
questions as the do-not-repeat list; both embed the joined tweet text. -/
inductive CallEvent where
  | main (requested : Nat) (tweetText : String)
  | followUp (missing : Nat) (existing : List RawQ) (tweetText : String)
deriving Repr, DecidableEq

/-- Line 78: `"\n".join([f"{t['created_at']}: {t['text']}" for t in tweets])`. -/
structure Tweet where
  created_at : String
  text : String
deriving Repr, DecidableEq

/-- The tweet block embedded in every prompt. -/
def tweetText (tweets : List Tweet) : String :=
  String.intercalate "\n" (tweets.map fun t => t.created_at ++ ": " ++ t.text)

/-- Python list indexing `xs[i]` with an `int` index: a negative index counts
from the end; `none` models the `IndexError` on an out-of-range index. -/
def pyIndex (xs : List String) (i : Int) : Option String :=
  if 0 ≤ i then xs[i.toNat]?
  else if 0 ≤ i + xs.length then xs[(i + xs.length).toNat]? else none

/-- Lines 203-213 for one question: default a missing or non-`int`
`correct_answer` to `0`, reset it to `0` when it is `>= len(options)`, then
overwrite `hash` with the locally computed fingerprint of
`question + options[correct_answer]`.  Errors model the `KeyError` on a
missing key and the `IndexError` on a bad index, which propagate to the
attempt-level handler. -/
def repairQ (q : RawQ) : Except PyExc RawQ :=
  let ca0 : Int := match q.correct_answer with | none => 0 | some c => c
  match q.options with
  | none => .error .keyError
  | some os =>
    let ca1 : Int := if (os.length : Int) ≤ ca0 then 0 else ca0
    match pyIndex os ca1 with
    | none => .error .indexError
    | some ans =>
      match q.question with
      | none => .error .keyError
      | some qt =>
        .ok { q with correct_answer := some ca1, hash := fingerprint qt ans }

/-- The loop of lines 202-213 over the whole batch.  The list is mutated in
place, so on an exception the already-processed prefix keeps its recomputed
hashes while the failing question and everything after it are untouched. -/
def repairAll : List RawQ → List RawQ × Option PyExc
  | [] => ([], none)
  | q :: rest =>
    match repairQ q with
    | .error e => (q :: rest, some e)
    | .ok q2 =>
      let r := repairAll rest
      (q2 :: r.1, r.2)

/-- Lines 222-228: pad a short batch on the final attempt by cloning the first
question with a `"FILLER: "` prefix and a recomputed hash.  `questions[0]` on
an empty batch raises `IndexError`; the clones are identical because the loop
always copies index 0. -/
def padQuestions (qs : List RawQ) (num : Nat) : Except PyExc (List RawQ) :=
  if qs.length < num then
    match qs with
    | [] => .error .indexError
    | q0 :: _ =>
      match q0.question with
      | none => .error .keyError
      | some qt =>
        let fq := "FILLER: " ++ qt
        match q0.options with
        | none => .error .keyError
        | some os =>
          match q0.correct_answer with
          | none => .error .keyError
          | some c =>
            match pyIndex os c with
            | none => .error .indexError
            | some ans =>
              .ok (qs ++ List.replicate (num - qs.length)
                    { q0 with question := some fq, hash := fingerprint fq ans })
  else .ok qs

/-- Lines 248-260, one fallback question. -/
def fallbackQ (i : Nat) : RawQ :=
  let qt := "Fallback question #" ++ toString (i + 1) ++ " (API error occurred)"
  { question := some qt,
    options := some ["Option A", "Option B", "Option C", "Option D"],
    correct_answer := some 0,
    hash := fingerprint qt "Option A" }

/-- `_generate_fallback_questions` (lines 248-260). -/
def generate_fallback_questions (num : Nat) : List RawQ :=
  (List.range num).map fallbackQ

/-- How one attempt of the retry loop ends. -/
inductive StepKind where
  | success (qs : List RawQ)
  | retryNext
  | exc (e : PyExc)
deriving Repr, DecidableEq

/-- The observable result of one attempt: how it ended, the state of the
`questions` variable (`none` models a non-list value), the next call index,
and the model calls it issued. -/
structure StepRes where
  kind : StepKind
  qstate : Option (List RawQ)
  nextCall : Nat
  events : List CallEvent
deriving Repr, DecidableEq

/-- Lines 199-229: truncate to `num`, run the hash/repair loop, then check the
count - returning on an exact match, padding (then returning) on the last
attempt, and otherwise falling through to the next attempt. -/
def finishAttempt (isLast : Bool) (num : Nat) (qs : List RawQ) (k : Nat)
    (evs : List CallEvent) : StepRes :=
  let qs2 := qs.take num
  match repairAll qs2 with
  | (qsPart, some e) => ⟨.exc e, some qsPart, k, evs⟩
  | (qs3, none) =>
    if qs3.length = num then ⟨.success qs3, some qs3, k, evs⟩
    else if isLast then
      match padQuestions qs3 num with
      | .ok padded => ⟨.success (padded.take num), some padded, k, evs⟩
      | .error e => ⟨.exc e, some qs3, k, evs⟩
    else ⟨.retryNext, some qs3, k, evs⟩

/-- One attempt of the retry loop (the body of the `try` at lines 118-229).
`qs0` is the current state of the `questions` variable.  A parse or type
failure raises (hence reaches the outer handler) only on the last attempt;
the follow-up call of lines 162-197 is issued whenever the parsed batch is
short, its parse failures are swallowed, and an API error in it propagates. -/
def attemptStep (oracle : Nat → CallOut) (tw : String) (num : Nat)
    (isLast : Bool) (qs0 : Option (List RawQ)) (k : Nat) : StepRes :=
  let ev0 : List CallEvent := [.main num tw]
  match oracle k with
  | .raise => ⟨.exc .apiError, qs0, k + 1, ev0⟩
  | .badText => ⟨if isLast then .exc .valueError else .retryNext, qs0, k + 1, ev0⟩
  | .numberLit => ⟨if isLast then .exc .valueError else .retryNext, none, k + 1, ev0⟩
  | .parsed qs =>
    if qs.length < num then
      let ev1 := ev0 ++ [.followUp (num - qs.length) qs tw]
      match oracle (k + 1) with
      | .raise => ⟨.exc .apiError, some qs, k + 2, ev1⟩
      | .badText => finishAttempt isLast num qs (k + 2) ev1
      | .numberLit => finishAttempt isLast num qs (k + 2) ev1
      | .parsed more => finishAttempt isLast num (qs ++ more) (k + 2) ev1
    else finishAttempt isLast num qs (k + 1) ev0

deriving instance DecidableEq for Except

/-- The result of `generate_questions`: what the caller receives (an
`Except.error` would be an exception escaping the function), the model calls
issued, and whether the returned batch came from the `except` handler
(lines 238/242) or the post-loop fallback (line 246) rather than a normal
return inside the `try` (lines 217/229). -/
structure GenResult where
  out : Except PyExc (List RawQ)
  calls : List CallEvent
  fromHandler : Bool
deriving Repr, DecidableEq

/-- The retry loop of lines 117-246, by the number of attempts left.  The
`except` handler (lines 231-243) returns, on the last attempt, the truncated
`questions` list when it is a nonempty list and the fallback batch otherwise;
earlier attempts sleep and loop. -/
def genLoop (oracle : Nat → CallOut) (tw : String) (num : Nat) :
    Nat → Option (List RawQ) → Nat → GenResult
  | 0, _, _ => ⟨.ok (generate_fallback_questions num), [], true⟩
  | n + 1, qs0, k =>
    let r := attemptStep oracle tw num (n == 0) qs0 k
    match r.kind with
    | .success qs => ⟨.ok qs, r.events, false⟩
    | .retryNext =>
      let g := genLoop oracle tw num n r.qstate r.nextCall
      ⟨g.out, r.events ++ g.calls, g.fromHandler⟩
    | .exc _ =>
      if n == 0 then
        match r.qstate with
        | some l =>
          if 0 < l.length then ⟨.ok (l.take num), r.events, true⟩
          else ⟨.ok (generate_fallback_questions num), r.events, true⟩
        | none => ⟨.ok (generate_fallback_questions num), r.events, true⟩
      else
        let g := genLoop oracle tw num n r.qstate r.nextCall
        ⟨g.out, r.events ++ g.calls, g.fromHandler⟩

/-- `generate_questions(tweets, num_questions, max_retries)`: the `questions`
variable starts as the empty list and the oracle is consulted from call 0. -/
def generate_questions (oracle : Nat → CallOut) (tweets : List Tweet)
    (num_questions : Nat) (max_retries : Nat) : GenResult :=
  genLoop oracle (tweetText tweets) num_questions max_retries (some []) 0

/-! ## Predicates for the claims, and concrete data for witnesses -/

/-- `repairQ` depends only on the `question`, `options` and `correct_answer`
fields; this spells that dependence out for the congruence proofs. -/
def repairFields (que : Option String) (opt : Option (List String))
    (ca : Option Int) : Except PyExc RawQ :=
  let ca0 : Int := match ca with | none => 0 | some c => c
  match opt with
  | none => .error .keyError
  | some os =>
    let ca1 : Int := if (os.length : Int) ≤ ca0 then 0 else ca0
    match pyIndex os ca1 with
    | none => .error .indexError
    | some ans =>
      match que with
      | none => .error .keyError
      | some qt => .ok ⟨some qt, some os, some ca1, fingerprint qt ans⟩

/-- A model call whose outcome fails to contribute a parsed batch: the call
raised, the content was unparsable, or it parsed to a non-list. -/
def failCall (c : CallOut) : Prop :=
  c = CallOut.raise ∨ c = CallOut.badText ∨ c = CallOut.numberLit

/-- A well-formed parsed question object, as the claims use the term: all four
fields present, exactly 4 options, and an in-range integer answer index. -/
def wfQ (q : RawQ) : Prop :=
  ∃ qt os c, q.question = some qt ∧ q.options = some os ∧ os.length = 4 ∧
    q.correct_answer = some c ∧ 0 ≤ c ∧ c < 4

/-- The QuestionDraft invariant of the specification: the hash field is the
locally computed fingerprint of `question + options[correct_answer]`, and
`correct_answer` selects a value present in the 4-element options list. -/
def draftInvariant (q : RawQ) : Prop :=
  ∃ qt os c ans, q.question = some qt ∧ q.options = some os ∧ os.length = 4 ∧
    q.correct_answer = some c ∧ pyIndex os c = some ans ∧ ans ∈ os ∧
    q.hash = fingerprint qt ans

/-- Two parsed question objects that agree except possibly in the
model-supplied `hash` field. -/
def qEquiv (q1 q2 : RawQ) : Prop :=
  q1.question = q2.question ∧ q1.options = q2.options ∧
  q1.correct_answer = q2.correct_answer

/-- Two call outcomes that agree except possibly in supplied `hash` fields. -/
def outEquiv : CallOut → CallOut → Prop
  | .parsed l1, .parsed l2 => List.Forall₂ qEquiv l1 l2
  | c1, c2 => c1 = c2

/-- The `questions`-state analogue of `outEquiv`. -/
def olEquiv : Option (List RawQ) → Option (List RawQ) → Prop
  | some l1, some l2 => List.Forall₂ qEquiv l1 l2
  | none, none => True
  | _, _ => False

/-- Relates how two hash-equivalent runs of one attempt can end: identical
batches on a normal return, the same retry decision, or the same exception. -/
def kindRel : StepKind → StepKind → Prop
  | .success l1, .success l2 => l1 = l2
  | .retryNext, .retryNext => True
  | .exc e1, .exc e2 => e1 = e2
  | _, _ => False

/-- A well-formed sample question (used by witnesses). -/
def mkWfQ (i : Nat) : RawQ :=
  ⟨some ("Q" ++ toString i), some ["A", "B", "C", "D"], some 0, ""⟩

/-- Five well-formed questions: a batch short of the default 15 by 10. -/
def fiveWf : List RawQ := (List.range 5).map mkWfQ

/-- Fifteen well-formed questions. -/
def fifteenWf : List RawQ := (List.range 15).map mkWfQ

/-- An oracle whose first call yields 5 questions and whose follow-up (and any
later call) yields 15. -/
def oc7 : Nat → CallOut :=
  fun k => if k = 0 then .parsed fiveWf else .parsed fifteenWf

/-- An oracle that always yields 15 well-formed questions. -/
def oWf15 : Nat → CallOut := fun _ => .parsed fifteenWf

/-- A parsed question carrying the negative answer index `-1`. -/
def qNeg : RawQ := ⟨some "nq", some ["a", "b", "c", "d"], some (-1), ""⟩

/-- An oracle that always yields the single question `qNeg`. -/
def oNeg : Nat → CallOut := fun _ => .parsed [qNeg]

/-- A single well-formed question whose model-supplied hash is `"AAAA"`. -/
def qHashA : RawQ := ⟨some "hq", some ["a", "b", "c", "d"], some 2, "AAAA"⟩

/-- The same question with model-supplied hash `"BBBB"`. -/
def qHashB : RawQ := ⟨some "hq", some ["a", "b", "c", "d"], some 2, "BBBB"⟩

/-- An oracle that always yields `[qHashA]`. -/
def oHashA : Nat → CallOut := fun _ => .parsed [qHashA]

/-- An oracle that always yields `[qHashB]`. -/
def oHashB : Nat → CallOut := fun _ => .parsed [qHashB]

/-- The sixteen characters of a lowercase hex digest. -/
def hexAlphabet : List Char := "0123456789abcdef".toList

/-! ## Theorems

### SHA-256 and the fingerprint (claim C1) -/

/-- Anchoring test vector: SHA-256 of the empty message agrees with
`hashlib.sha256(b'').hexdigest()`. -/
theorem sha256_empty_vector :
    hexOfBytes (sha256 []) =
      "e3b0c44298fc1c149afbf4c8996fb92427ae41e4649b934ca495991b7852b855" := by
  decide

/-- Anchoring test vector: SHA-256 of `"abc"` agrees with
`hashlib.sha256(b'abc').hexdigest()`. -/
theorem sha256_abc_vector :
    hexOfBytes (sha256 (utf8Bytes "abc")) =
      "ba7816bf8f01cfea414140de5dae2223b00361a396177a9cb410ff61f20015ad" := by
  decide

/-- A byte renders as exactly two hex characters. -/
theorem hexByte_length (b : Nat) : (hexByte b).length = 2 := rfl

/-- The hex digest of a byte list has twice its length in characters. -/
theorem flatMap_hexByte_length (bs : List Nat) :
    (bs.flatMap hexByte).length = 2 * bs.length := by
  induction bs with
  | nil => rfl
  | cons b t ih =>
    simp only [List.flatMap_cons, List.length_append, hexByte_length, ih,
      List.length_cons]
    omega

/-- The hex digest of a byte list has twice its length in characters. -/
theorem hexOfBytes_length (bs : List Nat) :
    (hexOfBytes bs).length = 2 * bs.length := by
  simpa [hexOfBytes] using flatMap_hexByte_length bs

/-- A SHA-256 digest is 32 bytes. -/
theorem sha256_length (msg : List Nat) : (sha256 msg).length = 32 := by
  simp [sha256, wordBE4]

/-- A fingerprint is 66 characters: `0x` plus 64 hex digits. -/
theorem fingerprint_length (q a : String) : (fingerprint q a).length = 66 := by
  have h2 : ("0x" : String).length = 2 := rfl
  simp [fingerprint, String.length_append, h2, hexOfBytes_length, sha256_length]

/-- Every nibble renders as a lowercase hex character. -/
theorem hexDigitChar_mem : ∀ n, n < 16 → hexDigitChar n ∈ hexAlphabet := by
  decide

/-- The big-endian bytes of a word are below 256. -/
theorem wordBE4_lt (w : Nat) : ∀ b ∈ wordBE4 w, b < 256 := by
  intro b hb
  simp only [wordBE4, List.mem_cons, List.not_mem_nil, or_false] at hb
  rcases hb with h | h | h | h <;> subst h <;> exact Nat.mod_lt _ (by norm_num)

/-- The digest bytes of SHA-256 are below 256. -/
theorem sha256_lt (msg : List Nat) : ∀ b ∈ sha256 msg, b < 256 := by
  intro b hb
  simp only [sha256, List.mem_append] at hb
  rcases hb with ((((((h | h) | h) | h) | h) | h) | h) | h <;>
    exact wordBE4_lt _ _ h

/-- Hex digests of byte lists use only the lowercase hex alphabet. -/
theorem mem_hexOfBytes_alphabet (bs : List Nat) (hbs : ∀ b ∈ bs, b < 256) :
    ∀ c ∈ (hexOfBytes bs).data, c ∈ hexAlphabet := by
  intro c hc
  rw [show (hexOfBytes bs).data = bs.flatMap hexByte from rfl,
    List.mem_flatMap] at hc
  obtain ⟨b, hb, hcb⟩ := hc
  have h256 := hbs b hb
  simp only [hexByte, List.mem_cons, List.not_mem_nil, or_false] at hcb
  rcases hcb with h | h <;> subst h
  · exact hexDigitChar_mem _ (by omega)
  · exact hexDigitChar_mem _ (by omega)

/-- C1: the fingerprint of a question/answer pair is a pure, deterministic,
total function of the two strings: for all strings `q` and `a` it equals
`"0x"` followed by the lowercase hex encoding of SHA-256 of the UTF-8 bytes of
`q` concatenated with `a` (no separator), it is always 66 characters long and
starts with `0x` followed only by lowercase hex digits, and repeated calls on
the same inputs yield identical output. -/
theorem c1_fingerprint_spec (q a : String) :
    fingerprint q a = "0x" ++ hexOfBytes (sha256 (utf8Bytes (q ++ a))) ∧
    (fingerprint q a).length = 66 ∧
    (fingerprint q a).data.take 2 = ['0', 'x'] ∧
    (∀ c ∈ (fingerprint q a).data.drop 2, c ∈ hexAlphabet) ∧
    fingerprint q a = fingerprint q a := by
  refine ⟨rfl, fingerprint_length q a, ?_, ?_, rfl⟩
  · rw [show (fingerprint q a).data =
      '0' :: 'x' :: (hexOfBytes (sha256 (utf8Bytes (q ++ a)))).data from rfl]
    rfl
  · rw [show (fingerprint q a).data =
      '0' :: 'x' :: (hexOfBytes (sha256 (utf8Bytes (q ++ a)))).data from rfl]
    exact mem_hexOfBytes_alphabet _ (sha256_lt _)

/-! ### `validate_answers` (claims C4 and C5) -/

/-- The scoring comprehension, characterized: starting the walk at index `i`,
it counts the positional matches against `correct.drop i` when the submitted
list fits, and raises `IndexError` when the submitted list runs past the end
of the stored list. -/
theorem scoreSum_spec (correct : List String) :
    ∀ (submitted : List String) (i : Nat),
      scoreSum correct submitted i =
        if submitted.length ≤ (correct.drop i).length
        then .ok (matchCount (correct.drop i) submitted)
        else .error () := by
  intro submitted
  induction submitted with
  | nil =>
    intro i
    simp [scoreSum, matchCount]
  | cons h t ih =>
    intro i
    have hdl : (correct.drop i).length = correct.length - i := List.length_drop ..
    rw [scoreSum]
    cases hci : correct[i]? with
    | none =>
      have hle : correct.length ≤ i := by simpa using hci
      rw [if_neg]
      simp only [List.length_cons]
      omega
    | some c =>
      have hlt : i < correct.length := by
        by_contra hcon
        push_neg at hcon
        rw [List.getElem?_eq_none hcon] at hci
        exact Option.noConfusion hci
      have hdc : correct.drop i = c :: correct.drop (i + 1) := by
        rw [List.drop_eq_getElem_cons hlt]
        have : correct[i] = c := by
          have h2 := hci
          rw [List.getElem?_eq_getElem hlt] at h2
          exact Option.some.inj h2
        rw [this]
      rw [ih (i + 1)]
      have hdl2 : (correct.drop (i + 1)).length = correct.length - (i + 1) :=
        List.length_drop ..
      by_cases hfit : t.length ≤ correct.length - (i + 1)
      · rw [if_pos (by omega), if_pos (by simp only [List.length_cons]; omega)]
        rw [hdc]
        simp only [matchCount, List.zip_cons_cons, List.countP_cons]
        have : (fun p : String × String => p.1 == p.2) (h, c) = (h == c) := rfl
        by_cases hhc : h = c
        · simp [hhc]
          omega
        · simp [hhc]
      · rw [if_neg (by omega), if_neg (by simp only [List.length_cons]; omega)]

/-- C4 counterexample: with one stored fingerprint and two submitted ones, of
which the first matches, the claim's count of matching overlapping indices is
1, but `validate_answers` returns 0 - the positional lookup raises an
`IndexError`, which the handler converts to score 0. -/
theorem c4_counterexample :
    validate_answers (.ok ["0xa"]) ["0xa", "0xb"] = 0 ∧
    matchCount ["0xa"] ["0xa", "0xb"] = 1 := by
  decide

/-- C4 (amended): when the submitted list is no longer than the stored list,
the score returned by `validate_answers` is exactly the number of indices at
which the two fingerprints are string-equal, and no exception escapes; when
the submitted list is strictly longer, the positional lookup raises an
`IndexError` that the handler converts to a score of 0 (so the overlapping
indices are not counted). -/
theorem c4_positional_score (correct submitted : List String) :
    validate_answers (.ok correct) submitted =
      if submitted.length ≤ correct.length then matchCount correct submitted
      else 0 := by
  rw [validate_answers]
  rw [scoreSum_spec correct submitted 0]
  simp only [List.drop_zero]
  by_cases hfit : submitted.length ≤ correct.length
  · rw [if_pos hfit, if_pos hfit]
  · rw [if_neg hfit, if_neg hfit]

/-- C5: whenever a step of `validate_answers` raises - the database lookup
fails, or the scoring comprehension raises an `IndexError` - the function
catches the exception and returns the integer 0 instead of propagating it. -/
theorem c5_swallow_failures (submitted correct : List String) :
    validate_answers .failure submitted = 0 ∧
    (scoreSum correct submitted 0 = .error () →
      validate_answers (.ok correct) submitted = 0) := by
  refine ⟨rfl, fun herr => ?_⟩
  rw [validate_answers, herr]

/-- C5 witness: a store failure and an out-of-range submission both score 0. -/
theorem c5_swallow_failures_witness :
    validate_answers .failure ["0xa"] = 0 ∧
    validate_answers (.ok []) ["0xa"] = 0 :=
  ⟨(c5_swallow_failures ["0xa"] []).1,
   (c5_swallow_failures ["0xa"] []).2 rfl⟩

/-! ### `clean_json_response` (claim C6) -/

/-- C6 counterexample: on the input `"```json[1]"` the code's regex removes
the `"```json"` prefix even though no line of the input is a code-fence marker
line, so `clean_json_response` succeeds with `"[1]"` while the claim's
condition - strip a leading/trailing code-fence marker line, trim, then check
the brackets - predicts a malformed-response failure. -/
theorem c6_counterexample :
    clean_json_response "```json[1]" = Except.ok "[1]" ∧
    specCleanFails "```json[1]" = true := by
  decide

/-- C6 (amended): the response-cleaning step fails exactly when the model
output - after removing every occurrence of a line-start ```json token with
the whitespace following it and of a line-end ``` token with the whitespace
preceding it, and then trimming surrounding whitespace - does not both start
with `[` and end with `]`; otherwise it returns that cleaned text.  (The
removal is not limited to a leading/trailing marker line: markers are removed
anywhere in the text, and a ```json prefix needs no line break after it.) -/
theorem c6_clean_iff (content : String) :
    (clean_json_response content = .error () ↔
      ¬((cleanedText content).data.head? = some '[' ∧
        (cleanedText content).data.getLast? = some ']')) ∧
    ∀ t, clean_json_response content = .ok t → t = cleanedText content := by
  unfold clean_json_response
  by_cases hc : (cleanedText content).data.head? = some '[' ∧
      (cleanedText content).data.getLast? = some ']'
  · rw [if_pos hc]
    refine ⟨⟨fun h => Except.noConfusion h, fun h => absurd hc h⟩, ?_⟩
    intro t ht
    exact (Except.ok.inj ht).symm
  · rw [if_neg hc]
    exact ⟨⟨fun _ => hc, fun _ => rfl⟩, fun t ht => Except.noConfusion ht⟩

/-- C6 witness: on a conventionally fenced payload the cleaner succeeds and
returns the cleaned text. -/
theorem c6_clean_iff_witness :
    "[1, 2]" = cleanedText "```json\n[1, 2]\n```" :=
  (c6_clean_iff "```json\n[1, 2]\n```").2 "[1, 2]" (by decide)

/-! ### The follow-up call (claim C7) -/

/-- The truncate/repair/count phase of an attempt issues no model call: its
event list is exactly what it was handed. -/
theorem finishAttempt_events (isLast : Bool) (num : Nat) (qs : List RawQ)
    (k : Nat) (evs : List CallEvent) :
    (finishAttempt isLast num qs k evs).events = evs := by
  rw [finishAttempt]
  rcases hra : repairAll (qs.take num) with ⟨l, e⟩
  cases e with
  | none =>
    simp only []
    split
    · rfl
    · split
      · rcases hpd : padQuestions l num with e2 | p <;> simp [hpd]
      · rfl
  | some e => rfl

/-- C7 counterexample: with a first batch of 5 parsed questions against a
target of 15 - short by 10, far beyond the claimed margin of 2 - the code
still issues a follow-up call requesting exactly the 10 missing questions. -/
theorem c7_counterexample :
    (generate_questions oc7 [] 15 3).calls =
      [CallEvent.main 15 "", CallEvent.followUp 10 fiveWf ""] ∧
    2 < 15 - fiveWf.length := by
  decide

/-- The model calls an attempt issues when its main call parses to a batch:
always the main call, plus - whenever the batch is short by any margin - one
follow-up requesting exactly the missing count with the accepted questions as
the exclusion list. -/
theorem attemptStep_events_parsed (oracle : Nat → CallOut) (tw : String)
    (num : Nat) (isLast : Bool) (qs0 : Option (List RawQ)) (k : Nat)
    (qs : List RawQ) (h : oracle k = .parsed qs) :
    (attemptStep oracle tw num isLast qs0 k).events =
      if qs.length < num
      then [.main num tw, .followUp (num - qs.length) qs tw]
      else [.main num tw] := by
  rw [attemptStep, h]
  by_cases hs : qs.length < num
  · rw [if_pos hs]
    simp only [if_pos hs]
    cases h2 : oracle (k + 1) <;> simp [finishAttempt_events]
  · rw [if_neg hs]
    simp only [if_neg hs]
    simp [finishAttempt_events]

/-- C7 (amended): a follow-up model call requesting exactly the missing count,
with the already-accepted questions passed as the do-not-repeat exclusion
list, is issued whenever the parsed batch is short by any margin - there is no
2-question bound and no retries-remain condition, so it happens on every
attempt, including the last. -/
theorem c7_followup_on_any_shortfall (oracle : Nat → CallOut) (tw : String)
    (num : Nat) (isLast : Bool) (qs0 : Option (List RawQ)) (k : Nat)
    (qs : List RawQ) (h : oracle k = .parsed qs) :
    (attemptStep oracle tw num isLast qs0 k).events =
      if qs.length < num
      then [.main num tw, .followUp (num - qs.length) qs tw]
      else [.main num tw] :=
  attemptStep_events_parsed oracle tw num isLast qs0 k qs h

/-- C7 witness: the short batch of 5 yields a follow-up for the missing 10. -/
theorem c7_followup_on_any_shortfall_witness :
    (attemptStep oc7 "" 15 false (some []) 0).events =
      if fiveWf.length < 15
      then [CallEvent.main 15 "", CallEvent.followUp (15 - fiveWf.length) fiveWf ""]
      else [CallEvent.main 15 ""] :=
  c7_followup_on_any_shortfall oc7 "" 15 false (some []) 0 fiveWf rfl

/-! ### Total containment of errors (claim C2) -/

/-- The fallback batch has exactly the requested length. -/
theorem fallback_length (num : Nat) :
    (generate_fallback_questions num).length = num := by
  simp [generate_fallback_questions]

/-- An attempt whose main call raises. -/
theorem attemptStep_raise (oracle : Nat → CallOut) (tw : String) (num : Nat)
    (last : Bool) (qs0 : Option (List RawQ)) (k : Nat)
    (h : oracle k = .raise) :
    attemptStep oracle tw num last qs0 k =
      ⟨.exc .apiError, qs0, k + 1, [.main num tw]⟩ := by
  simp only [attemptStep, h]

/-- An attempt whose main call returns unparsable text. -/
theorem attemptStep_badText (oracle : Nat → CallOut) (tw : String) (num : Nat)
    (last : Bool) (qs0 : Option (List RawQ)) (k : Nat)
    (h : oracle k = .badText) :
    attemptStep oracle tw num last qs0 k =
      ⟨if last then .exc .valueError else .retryNext, qs0, k + 1,
        [.main num tw]⟩ := by
  simp only [attemptStep, h]

/-- An attempt whose main call parses to a non-list. -/
theorem attemptStep_numberLit (oracle : Nat → CallOut) (tw : String)
    (num : Nat) (last : Bool) (qs0 : Option (List RawQ)) (k : Nat)
    (h : oracle k = .numberLit) :
    attemptStep oracle tw num last qs0 k =
      ⟨if last then .exc .valueError else .retryNext, none, k + 1,
        [.main num tw]⟩ := by
  simp only [attemptStep, h]

/-- The loop equation when the attempt returned a batch normally. -/
theorem genLoop_succ_success (oracle : Nat → CallOut) (tw : String)
    (num m : Nat) (qs0 : Option (List RawQ)) (k : Nat) (qs : List RawQ)
    (qst : Option (List RawQ)) (nc : Nat) (ev : List CallEvent)
    (h : attemptStep oracle tw num (m == 0) qs0 k = ⟨.success qs, qst, nc, ev⟩) :
    genLoop oracle tw num (m + 1) qs0 k = ⟨.ok qs, ev, false⟩ := by
  simp only [genLoop]
  rw [h]

/-- The loop equation when the attempt fell through to the next one. -/
theorem genLoop_succ_retry (oracle : Nat → CallOut) (tw : String)
    (num m : Nat) (qs0 : Option (List RawQ)) (k : Nat)
    (qst : Option (List RawQ)) (nc : Nat) (ev : List CallEvent)
    (h : attemptStep oracle tw num (m == 0) qs0 k = ⟨.retryNext, qst, nc, ev⟩) :
    genLoop oracle tw num (m + 1) qs0 k =
      ⟨(genLoop oracle tw num m qst nc).out,
       ev ++ (genLoop oracle tw num m qst nc).calls,
       (genLoop oracle tw num m qst nc).fromHandler⟩ := by
  simp only [genLoop]
  rw [h]

/-- The loop equation when a non-final attempt raised: sleep and loop. -/
theorem genLoop_succ_exc_notLast (oracle : Nat → CallOut) (tw : String)
    (num m : Nat) (qs0 : Option (List RawQ)) (k : Nat) (e : PyExc)
    (qst : Option (List RawQ)) (nc : Nat) (ev : List CallEvent)
    (hm : (m == 0) = false)
    (h : attemptStep oracle tw num (m == 0) qs0 k = ⟨.exc e, qst, nc, ev⟩) :
    genLoop oracle tw num (m + 1) qs0 k =
      ⟨(genLoop oracle tw num m qst nc).out,
       ev ++ (genLoop oracle tw num m qst nc).calls,
       (genLoop oracle tw num m qst nc).fromHandler⟩ := by
  simp only [genLoop]
  rw [h, hm]
  rfl

/-- The handler on the final attempt with a non-list `questions` value. -/
theorem genLoop_succ_exc_last_none (oracle : Nat → CallOut) (tw : String)
    (num m : Nat) (qs0 : Option (List RawQ)) (k : Nat) (e : PyExc)
    (nc : Nat) (ev : List CallEvent) (hm : (m == 0) = true)
    (h : attemptStep oracle tw num (m == 0) qs0 k = ⟨.exc e, none, nc, ev⟩) :
    genLoop oracle tw num (m + 1) qs0 k =
      ⟨.ok (generate_fallback_questions num), ev, true⟩ := by
  simp only [genLoop]
  rw [h, hm]
  rfl

/-- The handler on the final attempt with a list-valued `questions`. -/
theorem genLoop_succ_exc_last_some (oracle : Nat → CallOut) (tw : String)
    (num m : Nat) (qs0 : Option (List RawQ)) (k : Nat) (e : PyExc)
    (l : List RawQ) (nc : Nat) (ev : List CallEvent) (hm : (m == 0) = true)
    (h : attemptStep oracle tw num (m == 0) qs0 k = ⟨.exc e, some l, nc, ev⟩) :
    genLoop oracle tw num (m + 1) qs0 k =
      if 0 < l.length then ⟨.ok (l.take num), ev, true⟩
      else ⟨.ok (generate_fallback_questions num), ev, true⟩ := by
  simp only [genLoop]
  rw [h, hm]
  rfl

/-- The retry loop always hands its caller a value: every internal exception
is caught by the handler. -/
theorem genLoop_out_isOk (oracle : Nat → CallOut) (tw : String) (num : Nat) :
    ∀ (n : Nat) (qs0 : Option (List RawQ)) (k : Nat),
      (genLoop oracle tw num n qs0 k).out.isOk = true := by
  intro n
  induction n with
  | zero => intro qs0 k; rfl
  | succ m ih =>
    intro qs0 k
    rcases hstep : attemptStep oracle tw num (m == 0) qs0 k with ⟨kind, qst, nc, ev⟩
    cases kind with
    | success qs => rw [genLoop_succ_success oracle tw num m qs0 k qs qst nc ev hstep]; rfl
    | retryNext => rw [genLoop_succ_retry oracle tw num m qs0 k qst nc ev hstep]; exact ih _ _
    | exc e =>
      by_cases hm : (m == 0) = true
      · cases qst with
        | none => rw [genLoop_succ_exc_last_none oracle tw num m qs0 k e nc ev hm hstep]; rfl
        | some l =>
          rw [genLoop_succ_exc_last_some oracle tw num m qs0 k e l nc ev hm hstep]
          by_cases hl : 0 < l.length
          · rw [if_pos hl]; rfl
          · rw [if_neg hl]; rfl
      · rw [genLoop_succ_exc_notLast oracle tw num m qs0 k e qst nc ev
          (Bool.not_eq_true _ ▸ hm) hstep]
        exact ih _ _

/-- When no call of the run ever produces a parsed batch, the loop ends in
the fallback batch, whatever the retry budget. -/
theorem genLoop_allFail (oracle : Nat → CallOut) (tw : String) (num : Nat)
    (hf : ∀ i, failCall (oracle i)) :
    ∀ (n : Nat) (k : Nat) (qs0 : Option (List RawQ)),
      qs0 = some [] ∨ qs0 = none →
      (genLoop oracle tw num n qs0 k).out =
        .ok (generate_fallback_questions num) := by
  intro n
  induction n with
  | zero => intro k qs0 _; rfl
  | succ m ih =>
    intro k qs0 hqs
    by_cases hm : (m == 0) = true
    · rcases hf k with h | h | h
      · rcases hqs with rfl | rfl
        · rw [genLoop_succ_exc_last_some oracle tw num m (some []) k .apiError
            [] (k + 1) [.main num tw] hm (by rw [attemptStep_raise _ _ _ _ _ _ h])]
          rfl
        · rw [genLoop_succ_exc_last_none oracle tw num m none k .apiError
            (k + 1) [.main num tw] hm (by rw [attemptStep_raise _ _ _ _ _ _ h])]
      · rcases hqs with rfl | rfl
        · rw [genLoop_succ_exc_last_some oracle tw num m (some []) k .valueError
            [] (k + 1) [.main num tw] hm
            (by rw [attemptStep_badText _ _ _ _ _ _ h, hm]; rfl)]
          rfl
        · rw [genLoop_succ_exc_last_none oracle tw num m none k .valueError
            (k + 1) [.main num tw] hm
            (by rw [attemptStep_badText _ _ _ _ _ _ h, hm]; rfl)]
      · rw [genLoop_succ_exc_last_none oracle tw num m qs0 k .valueError
          (k + 1) [.main num tw] hm
          (by rw [attemptStep_numberLit _ _ _ _ _ _ h, hm]; rfl)]
    · have hm' : (m == 0) = false := Bool.not_eq_true _ ▸ hm
      rcases hf k with h | h | h
      · rw [genLoop_succ_exc_notLast oracle tw num m qs0 k .apiError qs0
          (k + 1) [.main num tw] hm' (by rw [attemptStep_raise _ _ _ _ _ _ h])]
        exact ih _ _ hqs
      · rw [genLoop_succ_retry oracle tw num m qs0 k qs0
          (k + 1) [.main num tw]
          (by rw [attemptStep_badText _ _ _ _ _ _ h, hm']; rfl)]
        exact ih _ _ hqs
      · rw [genLoop_succ_retry oracle tw num m qs0 k none
          (k + 1) [.main num tw]
          (by rw [attemptStep_numberLit _ _ _ _ _ _ h, hm']; rfl)]
        exact ih _ _ (Or.inr rfl)

/-- C2: for every input - any tweets list, any target count, any sequence of
model-call results including errors and malformed text - `generate_questions`
returns a value to its caller rather than raising; and on total failure (no
call ever yields a parsed batch) it returns the deterministically synthesized
fallback batch, which has exactly `target_count` generic placeholder
questions. -/
theorem c2_never_fails_outward (oracle : Nat → CallOut) (tweets : List Tweet)
    (num retries : Nat) :
    (generate_questions oracle tweets num retries).out.isOk = true ∧
    (generate_fallback_questions num).length = num ∧
    ((∀ i, failCall (oracle i)) →
      (generate_questions oracle tweets num retries).out =
        .ok (generate_fallback_questions num)) :=
  ⟨genLoop_out_isOk oracle (tweetText tweets) num retries (some []) 0,
   fallback_length num,
   fun hf =>
     genLoop_allFail oracle (tweetText tweets) num hf retries 0 (some [])
       (Or.inl rfl)⟩

/-- C2 witness: with every call raising, the run returns the 15 fallback
questions. -/
theorem c2_never_fails_outward_witness :
    (generate_questions (fun _ => CallOut.raise) [] 15 3).out =
      .ok (generate_fallback_questions 15) :=
  (c2_never_fails_outward (fun _ => CallOut.raise) [] 15 3).2.2
    (fun _ => Or.inl rfl)

/-! ### No empty-input early exit (claim C8) -/

/-- Every attempt opens with the main model call, whatever the oracle does. -/
theorem attemptStep_events_shape (oracle : Nat → CallOut) (tw : String)
    (num : Nat) (last : Bool) (qs0 : Option (List RawQ)) (k : Nat) :
    ∃ tail, (attemptStep oracle tw num last qs0 k).events =
      CallEvent.main num tw :: tail := by
  cases h : oracle k with
  | raise => exact ⟨[], by rw [attemptStep_raise _ _ _ _ _ _ h]⟩
  | badText => exact ⟨[], by rw [attemptStep_badText _ _ _ _ _ _ h]⟩
  | numberLit => exact ⟨[], by rw [attemptStep_numberLit _ _ _ _ _ _ h]⟩
  | parsed qs =>
    rw [attemptStep_events_parsed oracle tw num last qs0 k qs h]
    by_cases hs : qs.length < num
    · exact ⟨[.followUp (num - qs.length) qs tw], by rw [if_pos hs]⟩
    · exact ⟨[], by rw [if_neg hs]⟩

set_option maxRecDepth 4096 in
/-- C8 counterexample: with an empty tweets list and every model call
raising, `generate_questions` issues three model calls (one per attempt) and
returns the 15-question fallback batch - neither the claimed empty result nor
the claimed absence of model calls holds. -/
theorem c8_counterexample :
    (generate_questions (fun _ => CallOut.raise) [] 15 3).calls =
      [CallEvent.main 15 "", CallEvent.main 15 "", CallEvent.main 15 ""] ∧
    (generate_questions (fun _ => CallOut.raise) [] 15 3).out =
      .ok (generate_fallback_questions 15) ∧
    generate_fallback_questions 15 ≠ [] := by
  refine ⟨by decide, by decide, by decide⟩

/-- C8 (amended): `generate_questions` performs no empty-input short-circuit:
with an empty tweets list (and any oracle and target count), the very first
thing the run does is issue a main model call; the result then follows the
normal generation path - on total failure the fallback batch, never an
"empty result without calling the model". -/
theorem c8_no_early_exit (oracle : Nat → CallOut) (num retries : Nat) :
    ∃ tail, (generate_questions oracle [] num (retries + 1)).calls =
      CallEvent.main num (tweetText []) :: tail := by
  unfold generate_questions
  obtain ⟨tl, htl⟩ :=
    attemptStep_events_shape oracle (tweetText []) num (retries == 0) (some []) 0
  rcases hstep : attemptStep oracle (tweetText []) num (retries == 0) (some []) 0
    with ⟨kind, qst, nc, ev⟩
  rw [hstep] at htl
  have hev : ev = CallEvent.main num (tweetText []) :: tl := htl
  cases kind with
  | success qs =>
    rw [genLoop_succ_success oracle (tweetText []) num retries (some []) 0 qs
      qst nc ev hstep]
    exact ⟨tl, hev⟩
  | retryNext =>
    rw [genLoop_succ_retry oracle (tweetText []) num retries (some []) 0
      qst nc ev hstep]
    refine ⟨tl ++ (genLoop oracle (tweetText []) num retries qst nc).calls, ?_⟩
    show ev ++ (genLoop oracle (tweetText []) num retries qst nc).calls =
      CallEvent.main num (tweetText []) ::
        (tl ++ (genLoop oracle (tweetText []) num retries qst nc).calls)
    rw [hev]
    rfl
  | exc e =>
    by_cases hm : (retries == 0) = true
    · cases qst with
      | none =>
        rw [genLoop_succ_exc_last_none oracle (tweetText []) num retries
          (some []) 0 e nc ev hm hstep]
        exact ⟨tl, hev⟩
      | some l =>
        rw [genLoop_succ_exc_last_some oracle (tweetText []) num retries
          (some []) 0 e l nc ev hm hstep]
        by_cases hl : 0 < l.length
        · rw [if_pos hl]
          exact ⟨tl, hev⟩
        · rw [if_neg hl]
          exact ⟨tl, hev⟩
    · have hm2 : (retries == 0) = false := Bool.not_eq_true _ ▸ hm
      rw [genLoop_succ_exc_notLast oracle (tweetText []) num retries (some []) 0
        e qst nc ev hm2 hstep]
      refine ⟨tl ++ (genLoop oracle (tweetText []) num retries qst nc).calls, ?_⟩
      show ev ++ (genLoop oracle (tweetText []) num retries qst nc).calls =
        CallEvent.main num (tweetText []) ::
          (tl ++ (genLoop oracle (tweetText []) num retries qst nc).calls)
      rw [hev]
      rfl

/-! ### Valid model output gives exactly `target_count` invariant-satisfying drafts (claim C3) -/

/-- A successful Python list index hands back an element of the list. -/
theorem pyIndex_mem (os : List String) (c : Int) (a : String)
    (h : pyIndex os c = some a) : a ∈ os := by
  unfold pyIndex at h
  split at h
  · exact List.getElem?_mem h
  · split at h
    · exact List.getElem?_mem h
    · exact Option.noConfusion h

/-- A nonnegative index reads the list front-to-back. -/
theorem pyIndex_of_nonneg (os : List String) (c : Int) (h0 : 0 ≤ c) :
    pyIndex os c = os[c.toNat]? := by
  simp [pyIndex, h0]

/-- On a well-formed question, the repair step succeeds and establishes the
QuestionDraft invariant, leaving `correct_answer` unchanged. -/
theorem repairQ_wf (q : RawQ) (h : wfQ q) :
    ∃ q2, repairQ q = .ok q2 ∧ draftInvariant q2 := by
  obtain ⟨qt, os, c, hq, ho, hlen, hc, hc0, hc4⟩ := h
  have hnb : ¬((os.length : Int) ≤ c) := by
    rw [hlen]
    omega
  have htn : c.toNat < os.length := by
    rw [hlen]
    omega
  have hidx : pyIndex os c = some os[c.toNat] := by
    rw [pyIndex_of_nonneg os c hc0, List.getElem?_eq_getElem htn]
  simp only [repairQ, hq, ho, hc, if_neg hnb, hidx]
  refine ⟨_, rfl, qt, os, c, os[c.toNat], rfl, rfl, hlen, rfl, hidx, ?_, rfl⟩
  exact List.getElem?_mem (List.getElem?_eq_getElem htn)

/-- The in-place repair loop on an all-well-formed batch succeeds, keeps the
length, and leaves every draft satisfying the invariant. -/
theorem repairAll_wf :
    ∀ (l : List RawQ), (∀ q ∈ l, wfQ q) →
      ∃ l2, repairAll l = (l2, none) ∧ l2.length = l.length ∧
        ∀ q ∈ l2, draftInvariant q := by
  intro l
  induction l with
  | nil => exact fun _ => ⟨[], rfl, rfl, fun q hq => absurd hq (List.not_mem_nil q)⟩
  | cons q rest ih =>
    intro h
    obtain ⟨q2, hq2, hinv⟩ := repairQ_wf q (h q (List.mem_cons_self q rest))
    obtain ⟨l2, hl2, hlen, hinv2⟩ := ih (fun p hp => h p (List.mem_cons_of_mem q hp))
    refine ⟨q2 :: l2, ?_, ?_, ?_⟩
    · rw [repairAll, hq2, hl2]
    · simp [hlen]
    · intro p hp
      rcases List.mem_cons.mp hp with rfl | hp2
      · exact hinv
      · exact hinv2 p hp2

/-- Padding a nonempty batch of invariant-satisfying drafts succeeds, reaches
exactly the larger of its length and the target, and preserves the invariant
(the FILLER clones recompute their hash from the prefixed question text). -/
theorem padQuestions_inv (l : List RawQ) (num : Nat) (hne : l ≠ [])
    (h : ∀ q ∈ l, draftInvariant q) :
    ∃ l2, padQuestions l num = .ok l2 ∧ l2.length = max l.length num ∧
      ∀ q ∈ l2, draftInvariant q := by
  by_cases hlt : l.length < num
  · match l, hne with
    | q0 :: rest, _ =>
      obtain ⟨qt, os, c, ans, hq, ho, hlen, hc, hidx, hmem, hh⟩ :=
        h q0 (List.mem_cons_self q0 rest)
      have hlt2 : (q0 :: rest).length < num := hlt
      simp only [padQuestions, if_pos hlt2, hq, ho, hc, hidx]
      refine ⟨_, rfl, ?_, ?_⟩
      · simp only [List.length_append, List.length_replicate, List.length_cons]
        simp only [List.length_cons] at hlt2
        omega
      · intro p hp
        rcases List.mem_append.mp hp with hp1 | hp2
        · exact h p hp1
        · have hpe := List.eq_of_mem_replicate hp2
          subst hpe
          exact ⟨"FILLER: " ++ qt, os, c, ans, rfl, rfl, hlen, rfl, hidx, hmem, rfl⟩
  · rw [padQuestions.eq_def, if_neg hlt]
    exact ⟨l, rfl, by omega, h⟩

/-- Every fallback question satisfies the QuestionDraft invariant. -/
theorem fallback_invariant (num : Nat) :
    ∀ q ∈ generate_fallback_questions num, draftInvariant q := by
  intro q hq
  obtain ⟨i, _, rfl⟩ := List.mem_map.mp hq
  exact ⟨"Fallback question #" ++ toString (i + 1) ++ " (API error occurred)",
    ["Option A", "Option B", "Option C", "Option D"], 0, "Option A",
    rfl, rfl, rfl, rfl, rfl, by decide, rfl⟩

/-- On an all-well-formed input batch, the truncate/repair/count phase either
returns a full batch of invariant-satisfying drafts, falls through to the next
attempt, or raises out of the padding loop with `questions` left as the empty
list. -/
theorem finishAttempt_wf (isLast : Bool) (num : Nat) (qs : List RawQ) (k : Nat)
    (evs : List CallEvent) (h : ∀ q ∈ qs, wfQ q) :
    (∃ l, (finishAttempt isLast num qs k evs).kind = .success l ∧
      l.length = num ∧ ∀ q ∈ l, draftInvariant q) ∨
    (finishAttempt isLast num qs k evs).kind = .retryNext ∨
    (∃ e, (finishAttempt isLast num qs k evs).kind = .exc e ∧
      (finishAttempt isLast num qs k evs).qstate = some []) := by
  obtain ⟨l2, hra, hlen, hinv⟩ :=
    repairAll_wf (qs.take num) (fun q hq => h q (List.take_subset num qs hq))
  simp only [finishAttempt, hra]
  by_cases heq : l2.length = num
  · left
    rw [if_pos heq]
    exact ⟨l2, rfl, heq, hinv⟩
  · rw [if_neg heq]
    cases isLast with
    | false =>
      right
      left
      rfl
    | true =>
      by_cases hl2 : l2 = []
      · subst hl2
        have hnum : ([] : List RawQ).length < num := by
          simp only [List.length_nil] at heq ⊢
          omega
        right
        right
        rw [if_pos rfl]
        simp only [padQuestions, if_pos hnum]
        exact ⟨.indexError, rfl, trivial⟩
      · obtain ⟨l3, hpad, hlen3, hinv3⟩ := padQuestions_inv l2 num hl2 hinv
        left
        rw [if_pos rfl, hpad]
        have hle : l2.length ≤ num := by
          rw [hlen]
          have := List.length_take_le num qs
          omega
        have hlen3n : l3.length = num := by
          rw [hlen3]
          omega
        refine ⟨l3.take num, rfl, ?_, ?_⟩
        · rw [← hlen3n, List.take_length]
        · intro p hp
          exact hinv3 p (List.take_subset num l3 hp)

/-- With a good oracle - every call parses to a batch of well-formed question
objects - an attempt either returns a full invariant-satisfying batch, falls
through to the next attempt, or raises with `questions` left empty. -/
theorem attemptStep_goodOracle (oracle : Nat → CallOut) (tw : String)
    (num : Nat) (isLast : Bool) (qs0 : Option (List RawQ)) (k : Nat)
    (hgood : ∀ i, ∃ qs, oracle i = .parsed qs ∧ ∀ q ∈ qs, wfQ q) :
    (∃ l, (attemptStep oracle tw num isLast qs0 k).kind = .success l ∧
      l.length = num ∧ ∀ q ∈ l, draftInvariant q) ∨
    (attemptStep oracle tw num isLast qs0 k).kind = .retryNext ∨
    (∃ e, (attemptStep oracle tw num isLast qs0 k).kind = .exc e ∧
      (attemptStep oracle tw num isLast qs0 k).qstate = some []) := by
  obtain ⟨qs, hqs, hwf⟩ := hgood k
  simp only [attemptStep, hqs]
  by_cases hshort : qs.length < num
  · simp only [if_pos hshort]
    obtain ⟨more, hmore, hwfm⟩ := hgood (k + 1)
    rw [hmore]
    apply finishAttempt_wf
    intro q hq
    rcases List.mem_append.mp hq with h1 | h2
    · exact hwf q h1
    · exact hwfm q h2
  · simp only [if_neg hshort]
    exact finishAttempt_wf isLast num qs (k + 1) _ hwf

/-- With a good oracle the loop returns, at every retry budget, exactly `num`
drafts all satisfying the invariant. -/
theorem genLoop_goodOracle (oracle : Nat → CallOut) (tw : String) (num : Nat)
    (hgood : ∀ i, ∃ qs, oracle i = .parsed qs ∧ ∀ q ∈ qs, wfQ q) :
    ∀ (n : Nat) (qs0 : Option (List RawQ)) (k : Nat),
      ∃ l, (genLoop oracle tw num n qs0 k).out = .ok l ∧
        l.length = num ∧ ∀ q ∈ l, draftInvariant q := by
  intro n
  induction n with
  | zero =>
    intro qs0 k
    exact ⟨generate_fallback_questions num, rfl, fallback_length num,
      fallback_invariant num⟩
  | succ m ih =>
    intro qs0 k
    have htri := attemptStep_goodOracle oracle tw num (m == 0) qs0 k hgood
    rcases hstep : attemptStep oracle tw num (m == 0) qs0 k with ⟨kind, qst, nc, ev⟩
    rw [hstep] at htri
    rcases htri with ⟨l, hk, hlen, hinv⟩ | hk | ⟨e, hk, hqst⟩
    · have hk2 : kind = .success l := hk
      subst hk2
      rw [genLoop_succ_success oracle tw num m qs0 k l qst nc ev hstep]
      exact ⟨l, rfl, hlen, hinv⟩
    · have hk2 : kind = .retryNext := hk
      subst hk2
      rw [genLoop_succ_retry oracle tw num m qs0 k qst nc ev hstep]
      exact ih qst nc
    · have hk2 : kind = .exc e := hk
      subst hk2
      have hqst2 : qst = some [] := hqst
      subst hqst2
      by_cases hm : (m == 0) = true
      · rw [genLoop_succ_exc_last_some oracle tw num m qs0 k e [] nc ev hm hstep]
        rw [if_neg (by simp)]
        exact ⟨generate_fallback_questions num, rfl, fallback_length num,
          fallback_invariant num⟩
      · have hm2 : (m == 0) = false := Bool.not_eq_true _ ▸ hm
        rw [genLoop_succ_exc_notLast oracle tw num m qs0 k e (some []) nc ev hm2 hstep]
        exact ih (some []) nc

/-- C3: for every run whose model outputs all parse as JSON arrays of
well-formed question objects, `generate_questions` returns exactly
`target_count` drafts, and every returned draft satisfies the QuestionDraft
invariant: its hash equals the fingerprint of `question +
options[correct_answer]` and its `correct_answer` references a value present
in its 4-element options list. -/
theorem c3_valid_output_invariant (oracle : Nat → CallOut)
    (hgood : ∀ i, ∃ qs, oracle i = .parsed qs ∧ ∀ q ∈ qs, wfQ q)
    (tweets : List Tweet) (num retries : Nat) :
    ∃ l, (generate_questions oracle tweets num retries).out = .ok l ∧
      l.length = num ∧ ∀ q ∈ l, draftInvariant q :=
  genLoop_goodOracle oracle (tweetText tweets) num hgood retries (some []) 0

/-- C3 witness: an oracle that always parses to 15 well-formed questions makes
the run return exactly 15 invariant-satisfying drafts. -/
theorem c3_valid_output_invariant_witness :
    ∃ l, (generate_questions oWf15 [] 15 3).out = .ok l ∧
      l.length = 15 ∧ ∀ q ∈ l, draftInvariant q := by
  apply c3_valid_output_invariant oWf15 ?_ [] 15 3
  intro i
  refine ⟨fifteenWf, rfl, ?_⟩
  intro q hq
  obtain ⟨j, _, rfl⟩ := List.mem_map.mp hq
  exact ⟨"Q" ++ toString j, ["A", "B", "C", "D"], 0, rfl, rfl, rfl, rfl,
    by omega, by omega⟩

/-! ### Negative answer indices (claim C9) -/

set_option maxRecDepth 4096 in
/-- C9: for a parsed question whose `correct_answer` is a negative integer
(e.g. `-1`) with a 4-element options list, the in-place repair leaves
`correct_answer` unchanged - the bounds check only resets values that are
missing, non-`int`, or `>= len(options)` - and the fingerprint is computed
from the option selected by Python negative indexing (`options[-1]` is the
last option), so `generate_questions` can return a draft whose
`correct_answer` is negative. -/
theorem c9_negative_index (q : RawQ) (qt : String) (os : List String) (c : Int)
    (hq : q.question = some qt) (ho : q.options = some os)
    (hlen : os.length = 4) (hc : q.correct_answer = some c) (hneg : c < 0) :
    (∀ q2, repairQ q = .ok q2 → q2.correct_answer = some c ∧
      ∃ ans, pyIndex os c = some ans ∧ q2.hash = fingerprint qt ans) ∧
    pyIndex os (-1) = os[3]? ∧
    (∃ l, (generate_questions oNeg [] 1 3).out = .ok l ∧
      ∃ q3 ∈ l, q3.correct_answer = some (-1)) := by
  have hnb : ¬((os.length : Int) ≤ c) := by
    rw [hlen]
    omega
  refine ⟨?_, ?_, ?_⟩
  · intro q2 h2
    simp only [repairQ, hq, ho, hc, if_neg hnb] at h2
    cases hidx : pyIndex os c with
    | none =>
      rw [hidx] at h2
      exact Except.noConfusion h2
    | some ans =>
      rw [hidx] at h2
      obtain rfl := (Except.ok.inj h2).symm
      exact ⟨rfl, ans, rfl, rfl⟩
  · have hne : ¬(0 ≤ (-1 : Int)) := by omega
    have h4 : (os.length : Int) = 4 := by
      rw [hlen]
      rfl
    simp only [pyIndex, if_neg hne, h4]
    norm_num
    rfl
  · refine ⟨[⟨some "nq", some ["a", "b", "c", "d"], some (-1),
      fingerprint "nq" "d"⟩], by decide, ?_⟩
    exact ⟨⟨some "nq", some ["a", "b", "c", "d"], some (-1),
      fingerprint "nq" "d"⟩, List.mem_cons_self _ _, rfl⟩

/-- C9 witness: index `-1` into a concrete 4-option list reads the last
option. -/
theorem c9_negative_index_witness :
    pyIndex ["a", "b", "c", "d"] (-1) = (["a", "b", "c", "d"][3]?) :=
  (c9_negative_index qNeg "nq" ["a", "b", "c", "d"] (-1) rfl rfl rfl rfl
    (by omega)).2.1

/-! ### The model-supplied hash never influences the successful path (claim C10) -/

/-- `qEquiv` is reflexive. -/
theorem forall2_qEquiv_refl : ∀ l : List RawQ, List.Forall₂ qEquiv l l
  | [] => .nil
  | _ :: t => .cons ⟨rfl, rfl, rfl⟩ (forall2_qEquiv_refl t)

/-- `olEquiv` is reflexive. -/
theorem olEquiv_refl : ∀ o : Option (List RawQ), olEquiv o o
  | none => trivial
  | some l => forall2_qEquiv_refl l

/-- `kindRel` is reflexive. -/
theorem kindRel_refl : ∀ k : StepKind, kindRel k k
  | .success _ => rfl
  | .retryNext => trivial
  | .exc _ => rfl

/-- Hash-equivalent call outcomes have the same shape. -/
theorem outEquiv_cases (c1 c2 : CallOut) (h : outEquiv c1 c2) :
    (c1 = .raise ∧ c2 = .raise) ∨ (c1 = .badText ∧ c2 = .badText) ∨
    (c1 = .numberLit ∧ c2 = .numberLit) ∨
    (∃ l1 l2, c1 = .parsed l1 ∧ c2 = .parsed l2 ∧
      List.Forall₂ qEquiv l1 l2) := by
  cases c1 <;> cases c2 <;>
    first
      | exact Or.inl ⟨rfl, rfl⟩
      | exact Or.inr (Or.inl ⟨rfl, rfl⟩)
      | exact Or.inr (Or.inr (Or.inl ⟨rfl, rfl⟩))
      | exact Or.inr (Or.inr (Or.inr ⟨_, _, rfl, rfl, h⟩))
      | exact CallOut.noConfusion h

/-- The repair step reads only the three non-hash fields, so hash-equivalent
questions repair identically (the hash field is overwritten). -/
theorem repairQ_congr (q1 q2 : RawQ) (h : qEquiv q1 q2) :
    repairQ q1 = repairQ q2 := by
  obtain ⟨h1, h2, h3⟩ := h
  simp only [repairQ, h1, h2, h3]

/-- The repair loop on hash-equivalent batches: the same exception outcome,
hash-equivalent residual states, and identical batches when it succeeds. -/
theorem repairAll_rel :
    ∀ (l1 l2 : List RawQ), List.Forall₂ qEquiv l1 l2 →
      (repairAll l1).2 = (repairAll l2).2 ∧
      List.Forall₂ qEquiv (repairAll l1).1 (repairAll l2).1 ∧
      ((repairAll l1).2 = none → (repairAll l1).1 = (repairAll l2).1) := by
  intro l1 l2 h
  induction h with
  | nil => exact ⟨rfl, .nil, fun _ => rfl⟩
  | @cons a b t1 t2 hab htail ih =>
    have hcong := repairQ_congr a b hab
    cases hra : repairQ a with
    | error e =>
      have hrb : repairQ b = .error e := by rw [← hcong, hra]
      have e1 : repairAll (a :: t1) = (a :: t1, some e) := by rw [repairAll, hra]
      have e2 : repairAll (b :: t2) = (b :: t2, some e) := by rw [repairAll, hrb]
      rw [e1, e2]
      exact ⟨rfl, .cons hab htail, fun hcontra => Option.noConfusion hcontra⟩
    | ok q2 =>
      have hrb : repairQ b = .ok q2 := by rw [← hcong, hra]
      have e1 : repairAll (a :: t1) = (q2 :: (repairAll t1).1, (repairAll t1).2) := by
        rw [repairAll, hra]
      have e2 : repairAll (b :: t2) = (q2 :: (repairAll t2).1, (repairAll t2).2) := by
        rw [repairAll, hrb]
      rw [e1, e2]
      obtain ⟨ih1, ih2, ih3⟩ := ih
      exact ⟨ih1, .cons ⟨rfl, rfl, rfl⟩ ih2, fun hnone => by rw [ih3 hnone]⟩

/-- The truncate/repair/count phase on hash-equivalent batches ends the same
way, with hash-equivalent `questions` states. -/
theorem finishAttempt_rel (isLast : Bool) (num : Nat) (qs1 qs2 : List RawQ)
    (k : Nat) (evs1 evs2 : List CallEvent)
    (h : List.Forall₂ qEquiv qs1 qs2) :
    kindRel (finishAttempt isLast num qs1 k evs1).kind
        (finishAttempt isLast num qs2 k evs2).kind ∧
    olEquiv (finishAttempt isLast num qs1 k evs1).qstate
        (finishAttempt isLast num qs2 k evs2).qstate := by
  have htake := List.forall₂_take num h
  obtain ⟨hsnd, hfst, heqn⟩ := repairAll_rel _ _ htake
  rcases hra1 : repairAll (qs1.take num) with ⟨l1, e1⟩
  rcases hra2 : repairAll (qs2.take num) with ⟨l2, e2⟩
  rw [hra1, hra2] at hsnd hfst heqn
  have hsnd2 : e1 = e2 := hsnd
  have hfst2 : List.Forall₂ qEquiv l1 l2 := hfst
  have heqn2 : e1 = none → l1 = l2 := heqn
  subst hsnd2
  cases e1 with
  | some e =>
    simp only [finishAttempt, hra1, hra2]
    exact ⟨rfl, hfst2⟩
  | none =>
    have hl : l1 = l2 := heqn2 rfl
    subst hl
    simp only [finishAttempt, hra1, hra2]
    by_cases hn : l1.length = num
    · rw [if_pos hn, if_pos hn]
      exact ⟨rfl, forall2_qEquiv_refl l1⟩
    · rw [if_neg hn, if_neg hn]
      cases isLast with
      | false => exact ⟨trivial, forall2_qEquiv_refl l1⟩
      | true =>
        cases hp : padQuestions l1 num with
        | ok p =>
          simp only [hp]
          exact ⟨rfl, forall2_qEquiv_refl p⟩
        | error e =>
          simp only [hp]
          exact ⟨rfl, forall2_qEquiv_refl l1⟩

/-- The truncate/repair/count phase keeps the call counter it was handed. -/
theorem finishAttempt_nextCall (isLast : Bool) (num : Nat) (qs : List RawQ)
    (k : Nat) (evs : List CallEvent) :
    (finishAttempt isLast num qs k evs).nextCall = k := by
  rw [finishAttempt]
  rcases hra : repairAll (qs.take num) with ⟨l, e⟩
  cases e with
  | none =>
    simp only []
    split
    · rfl
    · split
      · rcases hpd : padQuestions l num with e2 | p <;> simp [hpd]
      · rfl
  | some e => rfl

/-- One attempt driven by hash-equivalent oracles from hash-equivalent
states: same call counter, same-shaped ending, hash-equivalent states. -/
theorem attemptStep_rel (o1 o2 : Nat → CallOut) (tw : String) (num : Nat)
    (last : Bool) (qs01 qs02 : Option (List RawQ)) (k : Nat)
    (ho : ∀ i, outEquiv (o1 i) (o2 i)) (hq : olEquiv qs01 qs02) :
    (attemptStep o1 tw num last qs01 k).nextCall =
      (attemptStep o2 tw num last qs02 k).nextCall ∧
    kindRel (attemptStep o1 tw num last qs01 k).kind
      (attemptStep o2 tw num last qs02 k).kind ∧
    olEquiv (attemptStep o1 tw num last qs01 k).qstate
      (attemptStep o2 tw num last qs02 k).qstate := by
  rcases outEquiv_cases (o1 k) (o2 k) (ho k) with
    ⟨h1, h2⟩ | ⟨h1, h2⟩ | ⟨h1, h2⟩ | ⟨l1, l2, h1, h2, hll⟩
  · rw [attemptStep_raise o1 tw num last qs01 k h1,
      attemptStep_raise o2 tw num last qs02 k h2]
    exact ⟨rfl, rfl, hq⟩
  · rw [attemptStep_badText o1 tw num last qs01 k h1,
      attemptStep_badText o2 tw num last qs02 k h2]
    refine ⟨rfl, ?_, hq⟩
    cases last with
    | false => exact trivial
    | true => exact rfl
  · rw [attemptStep_numberLit o1 tw num last qs01 k h1,
      attemptStep_numberLit o2 tw num last qs02 k h2]
    refine ⟨rfl, ?_, trivial⟩
    cases last with
    | false => exact trivial
    | true => exact rfl
  · have hlen := hll.length_eq
    by_cases hs : l1.length < num
    · have hs2 : l2.length < num := by omega
      rcases outEquiv_cases (o1 (k + 1)) (o2 (k + 1)) (ho (k + 1)) with
        ⟨g1, g2⟩ | ⟨g1, g2⟩ | ⟨g1, g2⟩ | ⟨m1, m2, g1, g2, hmm⟩
      · have ea1 : attemptStep o1 tw num last qs01 k =
            ⟨.exc .apiError, some l1, k + 2,
              [CallEvent.main num tw] ++ [.followUp (num - l1.length) l1 tw]⟩ := by
          simp only [attemptStep, h1, if_pos hs, g1]
        have ea2 : attemptStep o2 tw num last qs02 k =
            ⟨.exc .apiError, some l2, k + 2,
              [CallEvent.main num tw] ++ [.followUp (num - l2.length) l2 tw]⟩ := by
          simp only [attemptStep, h2, if_pos hs2, g2]
        rw [ea1, ea2]
        exact ⟨rfl, rfl, hll⟩
      · have ea1 : attemptStep o1 tw num last qs01 k =
            finishAttempt last num l1 (k + 2)
              ([CallEvent.main num tw] ++ [.followUp (num - l1.length) l1 tw]) := by
          simp only [attemptStep, h1, if_pos hs, g1]
        have ea2 : attemptStep o2 tw num last qs02 k =
            finishAttempt last num l2 (k + 2)
              ([CallEvent.main num tw] ++ [.followUp (num - l2.length) l2 tw]) := by
          simp only [attemptStep, h2, if_pos hs2, g2]
        rw [ea1, ea2]
        obtain ⟨hk, hq2⟩ := finishAttempt_rel last num l1 l2 (k + 2) _ _ hll
        exact ⟨by rw [finishAttempt_nextCall, finishAttempt_nextCall], hk, hq2⟩
      · have ea1 : attemptStep o1 tw num last qs01 k =
            finishAttempt last num l1 (k + 2)
              ([CallEvent.main num tw] ++ [.followUp (num - l1.length) l1 tw]) := by
          simp only [attemptStep, h1, if_pos hs, g1]
        have ea2 : attemptStep o2 tw num last qs02 k =
            finishAttempt last num l2 (k + 2)
              ([CallEvent.main num tw] ++ [.followUp (num - l2.length) l2 tw]) := by
          simp only [attemptStep, h2, if_pos hs2, g2]
        rw [ea1, ea2]
        obtain ⟨hk, hq2⟩ := finishAttempt_rel last num l1 l2 (k + 2) _ _ hll
        exact ⟨by rw [finishAttempt_nextCall, finishAttempt_nextCall], hk, hq2⟩
      · have ea1 : attemptStep o1 tw num last qs01 k =
            finishAttempt last num (l1 ++ m1) (k + 2)
              ([CallEvent.main num tw] ++ [.followUp (num - l1.length) l1 tw]) := by
          simp only [attemptStep, h1, if_pos hs, g1]
        have ea2 : attemptStep o2 tw num last qs02 k =
            finishAttempt last num (l2 ++ m2) (k + 2)
              ([CallEvent.main num tw] ++ [.followUp (num - l2.length) l2 tw]) := by
          simp only [attemptStep, h2, if_pos hs2, g2]
        rw [ea1, ea2]
        obtain ⟨hk, hq2⟩ := finishAttempt_rel last num (l1 ++ m1) (l2 ++ m2)
          (k + 2) _ _ (List.rel_append hll hmm)
        exact ⟨by rw [finishAttempt_nextCall, finishAttempt_nextCall], hk, hq2⟩
    · have hs2 : ¬(l2.length < num) := by omega
      have ea1 : attemptStep o1 tw num last qs01 k =
          finishAttempt last num l1 (k + 1) [CallEvent.main num tw] := by
        simp only [attemptStep, h1, if_neg hs]
      have ea2 : attemptStep o2 tw num last qs02 k =
          finishAttempt last num l2 (k + 1) [CallEvent.main num tw] := by
        simp only [attemptStep, h2, if_neg hs2]
      rw [ea1, ea2]
      obtain ⟨hk, hq2⟩ := finishAttempt_rel last num l1 l2 (k + 1) _ _ hll
      exact ⟨by rw [finishAttempt_nextCall, finishAttempt_nextCall], hk, hq2⟩

/-- Two hash-equivalent runs of the loop take the handler path together, and
when the batch is returned from the normal path it is identical in both. -/
theorem genLoop_rel (o1 o2 : Nat → CallOut) (tw : String) (num : Nat)
    (ho : ∀ i, outEquiv (o1 i) (o2 i)) :
    ∀ (n : Nat) (qs01 qs02 : Option (List RawQ)) (k : Nat),
      olEquiv qs01 qs02 →
      (genLoop o1 tw num n qs01 k).fromHandler =
        (genLoop o2 tw num n qs02 k).fromHandler ∧
      ((genLoop o1 tw num n qs01 k).fromHandler = false →
        (genLoop o1 tw num n qs01 k).out = (genLoop o2 tw num n qs02 k).out) := by
  intro n
  induction n with
  | zero => exact fun qs01 qs02 k _ => ⟨rfl, fun h => Bool.noConfusion h⟩
  | succ m ih =>
    intro qs01 qs02 k hq
    obtain ⟨hnc, hkind, hqst⟩ :=
      attemptStep_rel o1 o2 tw num (m == 0) qs01 qs02 k ho hq
    rcases hstep1 : attemptStep o1 tw num (m == 0) qs01 k with ⟨k1, q1, n1, e1⟩
    rcases hstep2 : attemptStep o2 tw num (m == 0) qs02 k with ⟨k2, q2, n2, e2⟩
    rw [hstep1, hstep2] at hnc hkind hqst
    have hnc2 : n1 = n2 := hnc
    have hkind2 : kindRel k1 k2 := hkind
    have hqst2 : olEquiv q1 q2 := hqst
    subst hnc2
    cases k1 with
    | success l =>
      cases k2 with
      | success l4 =>
        have hl : l = l4 := hkind2
        subst hl
        rw [genLoop_succ_success o1 tw num m qs01 k l q1 n1 e1 hstep1,
          genLoop_succ_success o2 tw num m qs02 k l q2 n1 e2 hstep2]
        exact ⟨rfl, fun _ => rfl⟩
      | retryNext => exact hkind2.elim
      | exc e => exact hkind2.elim
    | retryNext =>
      cases k2 with
      | success l4 => exact hkind2.elim
      | retryNext =>
        rw [genLoop_succ_retry o1 tw num m qs01 k q1 n1 e1 hstep1,
          genLoop_succ_retry o2 tw num m qs02 k q2 n1 e2 hstep2]
        obtain ⟨ihh, iho⟩ := ih q1 q2 n1 hqst2
        exact ⟨ihh, iho⟩
      | exc e => exact hkind2.elim
    | exc e =>
      cases k2 with
      | success l4 => exact hkind2.elim
      | retryNext => exact hkind2.elim
      | exc e4 =>
        have he : e = e4 := hkind2
        subst he
        by_cases hm : (m == 0) = true
        · cases q1 with
          | none =>
            cases q2 with
            | none =>
              rw [genLoop_succ_exc_last_none o1 tw num m qs01 k e n1 e1 hm hstep1,
                genLoop_succ_exc_last_none o2 tw num m qs02 k e n1 e2 hm hstep2]
              exact ⟨rfl, fun h => Bool.noConfusion h⟩
            | some l2' => exact hqst2.elim
          | some l1' =>
            cases q2 with
            | none => exact hqst2.elim
            | some l2' =>
              have hll : List.Forall₂ qEquiv l1' l2' := hqst2
              have hlen := hll.length_eq
              rw [genLoop_succ_exc_last_some o1 tw num m qs01 k e l1' n1 e1 hm
                  hstep1,
                genLoop_succ_exc_last_some o2 tw num m qs02 k e l2' n1 e2 hm
                  hstep2]
              by_cases hl : 0 < l1'.length
              · rw [if_pos hl, if_pos (by omega)]
                exact ⟨rfl, fun h => Bool.noConfusion h⟩
              · rw [if_neg hl, if_neg (by omega)]
                exact ⟨rfl, fun h => Bool.noConfusion h⟩
        · have hm2 : (m == 0) = false := Bool.not_eq_true _ ▸ hm
          rw [genLoop_succ_exc_notLast o1 tw num m qs01 k e q1 n1 e1 hm2 hstep1,
            genLoop_succ_exc_notLast o2 tw num m qs02 k e q2 n1 e2 hm2 hstep2]
          exact ih q1 q2 n1 hqst2

/-- C10: on the successful generation path the hash field of every returned
question is overwritten with the locally computed fingerprint, so two runs
whose model outputs differ only in the supplied hash field values take the
same path, and - whenever that path is the normal (non-handler) return -
produce identical question batches: the model-supplied hash never influences
the successful result. -/
theorem c10_hash_oblivious (o1 o2 : Nat → CallOut) (tweets : List Tweet)
    (num retries : Nat) (ho : ∀ i, outEquiv (o1 i) (o2 i)) :
    (generate_questions o1 tweets num retries).fromHandler =
      (generate_questions o2 tweets num retries).fromHandler ∧
    ((generate_questions o1 tweets num retries).fromHandler = false →
      (generate_questions o1 tweets num retries).out =
        (generate_questions o2 tweets num retries).out) :=
  genLoop_rel o1 o2 (tweetText tweets) num ho retries (some []) (some []) 0
    (forall2_qEquiv_refl [])

/-- C10 witness: two oracles whose single question differs only in the
model-supplied hash produce identical successful results. -/
theorem c10_hash_oblivious_witness :
    (generate_questions oHashA [] 1 3).fromHandler =
      (generate_questions oHashB [] 1 3).fromHandler ∧
    ((generate_questions oHashA [] 1 3).fromHandler = false →
      (generate_questions oHashA [] 1 3).out =
        (generate_questions oHashB [] 1 3).out) :=
  c10_hash_oblivious oHashA oHashB [] 1 3
    (fun _ => List.Forall₂.cons ⟨rfl, rfl, rfl⟩ List.Forall₂.nil)

end DTAI